import Mathlib

/-!
Verification development for the Gmail-to-Google-Sheets synchronization
system.  The definitions below are a shallow embedding of the Python
source files:

* `src/sheets_service.py` — row normalization, duplicate detection and
  batch append (`SheetsService.is_duplicate`, `SheetsService.append_rows`);
* `src/email_parser.py`   — message normalization (`EmailParser`);
* `src/main.py`           — state management (`StateManager`) and the
  synchronization pass (`main`).

Remote transports (Gmail / Sheets HTTP clients, OAuth) are modelled as
always-available: a sheet is a list of data rows, the inbox is a list of
messages carrying an unread flag, the state file is an optional parsed
record.  Base64 payload data is modelled as the already-decoded text
(`base64.urlsafe_b64decode(...).decode('utf-8', errors='ignore')` is
total), and the local timezone used by `datetime.fromtimestamp` is fixed
to UTC.
-/

/-! ### Rows and normalization (sheets_service.py, lines 186-217) -/

/-- A spreadsheet row as returned by the Sheets values API: a list of
cells.  Rows produced by the orchestrator have exactly four cells
(From, Subject, Date, Content) but `is_duplicate` accepts ragged rows. -/
abbrev Row := List String

/-- Characters removed by Python str.strip with no argument. -/
def trimChars (cs : List Char) : List Char :=
  ((cs.dropWhile Char.isWhitespace).reverse.dropWhile Char.isWhitespace).reverse

/-- Python str.strip(): leading and trailing whitespace removed. -/
def strTrim (s : String) : String := ⟨trimChars s.data⟩

/-- Python str.lower(), on the ASCII letters that appear in rows. -/
def strLower (s : String) : String := ⟨s.data.map Char.toLower⟩

/-- The per-cell normalization of is_duplicate:
str(cell).strip().lower() if cell else ''.  On strings the falsy case
(the empty string) coincides with trimming and lowercasing. -/
def normCell (s : String) : String := strLower (strTrim s)

/-- Row normalization used in both branches of is_duplicate. -/
def normRow (r : Row) : Row := r.map normCell

/-- SheetsService.is_duplicate (lines 186-217): a candidate row is a
duplicate when some existing row either matches on all cells (with equal
length) or matches on the first three cells (both rows having at least
three cells). -/
def isDuplicate (newRow : Row) (existingRows : List Row) : Bool :=
  let nn := normRow newRow
  existingRows.any fun er =>
    let ne := normRow er
    (nn.length == ne.length && nn == ne)
      || (decide (3 ≤ nn.length) && decide (3 ≤ ne.length)
            && nn.take 3 == ne.take 3)

/-! ### Batch append (sheets_service.py, lines 219-281) -/

/-- A remote operation issued against the tabular store, recorded so that
theorems can speak about which sink calls a code path performs. -/
inductive SinkOp where
  | ensureHeader : SinkOp
  | readRows : SinkOp
  | append (rows : Nat) : SinkOp
deriving Repr, DecidableEq

/-- Result of SheetsService.append_rows: the sheet contents after the
call (data rows only, the header row is not part of the model), the
(appended, skipped) counters returned to the caller, and the trace of
sink operations performed. -/
structure AppendOutcome where
  sheet : List Row
  appended : Nat
  skipped : Nat
  ops : List SinkOp
deriving Repr, DecidableEq

/-- The max_rows default of SheetsService.get_existing_rows. -/
def MAX_ROWS : Nat := 10000

/-- SheetsService.get_existing_rows (lines 156-184): reads the range
from A2 to column D of row max_rows plus one, i.e. the first MAX_ROWS
data rows of the sheet. -/
def getExistingRows (sheet : List Row) : List Row := sheet.take MAX_ROWS

/-- One iteration of the duplicate-filter loop of append_rows
(lines 247-254): state is (new_rows, existing_rows, skipped_count). -/
def dedupStep (acc : List Row × List Row × Nat) (row : Row) :
    List Row × List Row × Nat :=
  match acc with
  | (newRows, existing, skipped) =>
    if isDuplicate row existing then (newRows, existing, skipped + 1)
    else (newRows ++ [row], existing ++ [row], skipped)

/-- SheetsService.append_rows (lines 219-281).  An empty input returns
(0, 0) before any remote call; otherwise the header is ensured, the
existing rows are read once, duplicates are filtered (extending the
comparison set in place) and the surviving rows are appended in one
batch call. -/
def appendRows (sheet : List Row) (rows : List Row) : AppendOutcome :=
  if rows.isEmpty then ⟨sheet, 0, 0, []⟩
  else
    let existing := getExistingRows sheet
    let folded := rows.foldl dedupStep ([], existing, 0)
    let newRows := folded.1
    let skipped := folded.2.2
    if newRows.isEmpty then ⟨sheet, 0, skipped, [.ensureHeader, .readRows]⟩
    else
      ⟨sheet ++ newRows, newRows.length, skipped,
        [.ensureHeader, .readRows, .append newRows.length]⟩

/-! ### Row identity (the first three normalized cells) -/

/-- A row matches an identity key when it has at least three cells and
its first three normalized cells equal the key.  This is exactly the
lenient branch of is_duplicate, fixing the key. -/
def matchesId (k : List String) (r : Row) : Bool :=
  decide (3 ≤ r.length) && ((normRow r).take 3 == k)

/-- Number of rows of a sheet matching an identity key. -/
def countId (k : List String) (sheet : List Row) : Nat :=
  (sheet.filter (matchesId k)).length

/-- A sequence of passes acting on the tabular store: each pass issues
one append_rows call with the batch of rows it accepted. -/
def applyPasses (sheet : List Row) (batches : List (List Row)) : List Row :=
  batches.foldl (fun s rows => (appendRows s rows).sheet) sheet

example : isDuplicate ["a@x.com", "Hi", "2024-01-01 00:00:00", "Body"]
    [["A@X.COM", " hi ", "2024-01-01 00:00:00", "Body"]] = true := by decide

example : isDuplicate ["a@x.com", "Hi", "2024-01-01 00:00:00", "B1"]
    [["a@x.com", "Hi", "2024-01-01 00:00:00", "B2"]] = true := by decide

example : isDuplicate ["a@x.com", "Hi", "t1", "B"]
    [["a@x.com", "Hi", "t2", "B"]] = false := by decide

example : appendRows [] [["a", "b", "c", "d"]] =
    ⟨[["a", "b", "c", "d"]], 1, 0,
      [.ensureHeader, .readRows, .append 1]⟩ := by decide

/-! ### HTML to text (email_parser.py, lines 132-167) -/

/-- Split a character list at the first closing angle bracket, returning
the segment before it and the remainder after it. -/
def splitAtGt : List Char → Option (List Char × List Char)
  | [] => none
  | c :: rest =>
    if c = '>' then some ([], rest)
    else (splitAtGt rest).map (fun p => (c :: p.1, p.2))

theorem splitAtGt_length {cs a b : List Char} (h : splitAtGt cs = some (a, b)) :
    a.length + 1 + b.length = cs.length := by
  induction cs generalizing a b with
  | nil => simp [splitAtGt] at h
  | cons c rest ih =>
    by_cases hc : c = '>'
    · simp [splitAtGt, hc] at h
      obtain ⟨ha, hb⟩ := h
      subst ha; subst hb; simp; omega
    · simp only [splitAtGt, if_neg hc] at h
      cases hrec : splitAtGt rest with
      | none => rw [hrec] at h; simp at h
      | some p =>
        rw [hrec] at h
        simp at h
        obtain ⟨ha, hb⟩ := h
        have := ih (a := p.1) (b := p.2) (by rw [hrec])
        subst ha; subst hb
        simp [List.length_cons]
        omega

/-- The tag-removal pass of html_to_text: the regex that deletes every
maximal segment of the shape open-bracket, one or more characters other
than the closing bracket, closing bracket. -/
def removeTags (cs : List Char) : List Char :=
  match cs with
  | [] => []
  | c :: rest =>
    if c = '<' then
      match h : splitAtGt rest with
      | some (inside, after) =>
        if inside.isEmpty then c :: removeTags rest
        else removeTags after
      | none => c :: removeTags rest
    else c :: removeTags rest
termination_by cs.length
decreasing_by
  all_goals simp
  all_goals first
  | omega
  | (have hsz := splitAtGt_length h; omega)

/-- Python str.replace for a nonempty pattern: replace every
non-overlapping occurrence, scanning left to right.  An empty pattern is
returned unchanged (the source only uses literal nonempty patterns). -/
def replaceChars (pat rep : List Char) (cs : List Char) : List Char :=
  match pat, cs with
  | _, [] => []
  | [], c :: rest => c :: rest
  | p :: ps, c :: rest =>
    if (p :: ps).isPrefixOf (c :: rest) then
      rep ++ replaceChars (p :: ps) rep ((c :: rest).drop (p :: ps).length)
    else c :: replaceChars (p :: ps) rep rest
termination_by cs.length
decreasing_by
  all_goals simp [List.length_drop]
  all_goals omega

/-- The named-entity table of html_to_text, applied in source order. -/
def decodeEntities (cs : List Char) : List Char :=
  let cs := replaceChars "&nbsp;".data [' '] cs
  let cs := replaceChars "&amp;".data ['&'] cs
  let cs := replaceChars "&lt;".data ['<'] cs
  let cs := replaceChars "&gt;".data ['>'] cs
  let cs := replaceChars "&quot;".data ['"'] cs
  replaceChars "&#39;".data [Char.ofNat 39] cs

/-- Decimal digit run to a natural number. -/
def digitsToNat (ds : List Char) : Nat :=
  ds.foldl (fun n c => n * 10 + (c.toNat - 48)) 0

/-- Hexadecimal digit test of the hex character-reference regex. -/
def isHexChar (c : Char) : Bool :=
  c.isDigit || ('a' ≤ c && c ≤ 'f') || ('A' ≤ c && c ≤ 'F')

/-- Hexadecimal digit run to a natural number. -/
def hexToNat (ds : List Char) : Nat :=
  ds.foldl (fun n c =>
    n * 16 + (if c.isDigit then c.toNat - 48 else c.toLower.toNat - 87)) 0

/-- Decimal numeric character references: ampersand, hash, digits,
semicolon replaced by the denoted character. -/
def decodeDecEntities : List Char → List Char
  | [] => []
  | '&' :: '#' :: rest =>
      let ds := rest.takeWhile Char.isDigit
      if ds.isEmpty then '&' :: decodeDecEntities ('#' :: rest)
      else
        match h : rest.drop ds.length with
        | ';' :: tail => Char.ofNat (digitsToNat ds) :: decodeDecEntities tail
        | _ => '&' :: decodeDecEntities ('#' :: rest)
  | c :: cs => c :: decodeDecEntities cs
termination_by cs => cs.length
decreasing_by
  all_goals simp
  have hlen : (rest.drop (rest.takeWhile Char.isDigit).length).length =
      rest.length - (rest.takeWhile Char.isDigit).length := List.length_drop _ _
  rw [h] at hlen
  simp at hlen
  omega

/-- Hexadecimal numeric character references. -/
def decodeHexEntities : List Char → List Char
  | [] => []
  | '&' :: '#' :: 'x' :: rest =>
      let ds := rest.takeWhile isHexChar
      if ds.isEmpty then '&' :: decodeHexEntities ('#' :: 'x' :: rest)
      else
        match h : rest.drop ds.length with
        | ';' :: tail => Char.ofNat (hexToNat ds) :: decodeHexEntities tail
        | _ => '&' :: decodeHexEntities ('#' :: 'x' :: rest)
  | c :: cs => c :: decodeHexEntities cs
termination_by cs => cs.length
decreasing_by
  all_goals simp
  have hlen : (rest.drop (rest.takeWhile isHexChar).length).length =
      rest.length - (rest.takeWhile isHexChar).length := List.length_drop _ _
  rw [h] at hlen
  simp at hlen
  omega

/-- The whitespace-collapsing pass: every maximal whitespace run becomes
a single space. -/
def collapseWs : List Char → List Char
  | [] => []
  | c :: rest =>
    if c.isWhitespace then ' ' :: collapseWs (rest.dropWhile Char.isWhitespace)
    else c :: collapseWs rest
termination_by cs => cs.length
decreasing_by
  all_goals simp
  have := (List.dropWhile_sublist (l := rest) Char.isWhitespace).length_le
  omega

/-- EmailParser.html_to_text (lines 132-167): remove tags, decode the
six named entities, decode decimal then hexadecimal numeric character
references, collapse whitespace, strip. -/
def htmlToText (html : String) : String :=
  let t := removeTags html.data
  let t := decodeEntities t
  let t := decodeDecEntities t
  let t := decodeHexEntities t
  let t := collapseWs t
  strTrim ⟨t⟩

/-! ### Message payloads and body extraction (email_parser.py, lines 66-130) -/

/-- A Gmail message payload part.  A part carries a content type, a
header list and decoded body text; the two constructors record whether
the underlying dict has a parts key (the source distinguishes a missing
parts key from an empty list).  Missing mimeType or body data are
modelled by the empty string, a missing header list by the empty list,
exactly as the dict lookups with defaults do in the source. -/
inductive Payload where
  | single (mimeType : String) (headers : List (String × String)) (data : String)
  | multi (mimeType : String) (headers : List (String × String)) (data : String)
      (parts : List Payload)

/-- Content type of a part. -/
def Payload.mime : Payload → String
  | .single mt _ _ => mt
  | .multi mt _ _ _ => mt

/-- Decoded body data of a part. -/
def Payload.data : Payload → String
  | .single _ _ d => d
  | .multi _ _ d _ => d

/-- Header list of a part. -/
def Payload.headers : Payload → List (String × String)
  | .single _ h _ => h
  | .multi _ h _ _ => h

/-- True for a leaf part (no parts key in the dict). -/
def Payload.isSingle : Payload → Bool
  | .single _ _ _ => true
  | .multi _ _ _ _ => false

/-- The body-accumulation step applied to each part of a multipart
payload before its nested parts are considered (lines 83-102): a
plain-text part appends its decoded data; an HTML part is converted and
used only when nothing has been accumulated yet. -/
def plainHtmlStep (mimeType dataStr body : String) : String :=
  if mimeType == "text/plain" && dataStr != "" then body ++ dataStr
  else if mimeType == "text/html" && body == "" && dataStr != "" then
    htmlToText dataStr
  else body

/-- The loop over the parts of a multipart payload (lines 82-108),
threading the accumulated body.  A nested part tree is recursively
extracted (which strips its result) and used only when the body
accumulated so far is empty. -/
def extractLoop (body : String) (parts : List Payload) : String :=
  match parts with
  | [] => body
  | .single mt _ d :: ps => extractLoop (plainHtmlStep mt d body) ps
  | .multi mt _ d sub :: ps =>
    let b := plainHtmlStep mt d body
    let nested := strTrim (extractLoop "" sub)
    extractLoop (if nested != "" && b == "" then nested else b) ps
termination_by sizeOf parts
decreasing_by
  all_goals simp
  all_goals omega

/-- EmailParser.extract_plain_text_from_payload (lines 66-130): a
multipart payload is folded by extractLoop; a single-part payload uses
its own decoded data, converted when it is HTML; the result is
stripped. -/
def extractPlainText (payload : Payload) : String :=
  match payload with
  | .multi _ _ _ parts => strTrim (extractLoop "" parts)
  | .single mt _ d =>
    strTrim (if d == "" then ""
      else if mt == "text/plain" then d
      else if mt == "text/html" then htmlToText d
      else d)

/-! ### Dates (email_parser.py, lines 169-187) -/

/-- Two-digit zero padding of strftime. -/
def pad2 (n : Nat) : String := if n < 10 then "0" ++ toString n else toString n

/-- Civil date from a count of days since 1970-01-01 (proleptic
Gregorian calendar), as performed by datetime.fromtimestamp. -/
def civilFromDays (days : Nat) : Nat × Nat × Nat :=
  let z := days + 719468
  let era := z / 146097
  let doe := z % 146097
  let yoe := (doe - doe / 1460 + doe / 36524 - doe / 146096) / 365
  let y := yoe + era * 400
  let doy := doe - (365 * yoe + yoe / 4 - yoe / 100)
  let mp := (5 * doy + 2) / 153
  let d := doy - (153 * mp + 2) / 5 + 1
  let m := if mp < 10 then mp + 3 else mp - 9
  (if m ≤ 2 then y + 1 else y, m, d)

/-- EmailParser.format_date (lines 169-187): milliseconds since the
epoch rendered as YYYY-MM-DD HH:MM:SS.  The local timezone of
datetime.fromtimestamp is modelled as UTC; the defensive fallback for
timestamps the platform cannot represent is not modelled (every natural
number is representable here). -/
def formatDate (ms : Nat) : String :=
  let s := ms / 1000
  let days := s / 86400
  let secs := s % 86400
  let ymd := civilFromDays days
  toString ymd.1 ++ "-" ++ pad2 ymd.2.1 ++ "-" ++ pad2 ymd.2.2 ++ " " ++
    pad2 (secs / 3600) ++ ":" ++ pad2 (secs % 3600 / 60) ++ ":" ++
    pad2 (secs % 60)

/-! ### Headers and sender extraction (email_parser.py, lines 24-64, 219-223) -/

/-- EmailParser.decode_mime_words: header values are modelled as
already-decoded text, on which the decoding loop is the identity (its
byte-level branches concern transport encodings outside this model). -/
def decodeMimeWords (s : String) : String := s

/-- EmailParser.get_header_value (lines 49-64): first header whose name
matches case-insensitively, decoded; empty string when absent. -/
def getHeaderValue (headers : List (String × String)) (name : String) : String :=
  match headers.find? (fun h => strLower h.1 == strLower name) with
  | some h => decodeMimeWords h.2
  | none => ""

/-- Character class of the local and domain segments of the sender
regex (word characters, dot, dash). -/
def isLocalChar (c : Char) : Bool := c.isAlphanum || c == '_' || c == '.' || c == '-'

/-- Word character class of the sender regex. -/
def isWordChar (c : Char) : Bool := c.isAlphanum || c == '_'

/-- Position of a dot usable as the final dot of the domain: preceded
by at least one character of the run and followed by a word character. -/
def validDot (run : List Char) (j : Nat) : Bool :=
  decide (1 ≤ j) && (run.get? j == some '.') &&
    (match run.get? (j + 1) with
     | some c => isWordChar c
     | none => false)

/-- Rightmost valid dot of the domain run (the greedy first segment of
the regex backtracks from the right). -/
def bestDotIdx (run : List Char) : Option Nat :=
  (List.range run.length).foldl
    (fun acc j => if validDot run j then some j else acc) none

/-- Domain part matched after the at sign, if any. -/
def domainMatch (rest : List Char) : Option (List Char) :=
  let run := rest.takeWhile isLocalChar
  match bestDotIdx run with
  | some j => some (run.take (j + 1) ++ (run.drop (j + 1)).takeWhile isWordChar)
  | none => none

/-- Left-to-right scan for the first at sign with a nonempty local part
before it and a matching domain after it; the first argument holds the
characters already passed, in reverse. -/
def emailScan (before : List Char) : List Char → Option (List Char)
  | [] => none
  | c :: rest =>
    if c = '@' then
      let localRev := before.takeWhile isLocalChar
      if localRev.isEmpty then emailScan (c :: before) rest
      else
        match domainMatch rest with
        | some dom => some (localRev.reverse ++ c :: dom)
        | none => emailScan (c :: before) rest
    else emailScan (c :: before) rest

/-- The sender clean-up of parse_message (lines 219-223): the first
embedded email-address pattern, if any. -/
def extractEmailAddress (s : String) : Option String :=
  (emailScan [] s.data).map (fun cs => ⟨cs⟩)

/-! ### parse_message (email_parser.py, lines 189-238) -/

/-- A full Gmail message as fetched with format full: an optional
payload and an optional numeric internal date in epoch milliseconds
(the source converts the provider decimal string with int, and treats a
missing or empty field as absent). -/
structure Message where
  payload : Option Payload
  internalDate : Option Nat

/-- The error parse_message reports to its caller (re-raised from its
except block). -/
inductive ParseError where
  | parseError : ParseError
deriving Repr, DecidableEq

/-- The normalized record produced by parse_message, with keys from,
subject, date, content (the from key is named fromAddr here because
from is reserved in Lean). -/
structure ParsedData where
  fromAddr : String
  subject : String
  date : String
  content : String
deriving Repr, DecidableEq

/-- The payload used when the message has no payload field: the empty
dict, i.e. a leaf part with no content type, headers or data. -/
def defaultPayload : Payload := .single "" [] ""

/-- The record computed by the body of EmailParser.parse_message
(lines 189-238). -/
def parseMessageData (m : Message) : ParsedData :=
  let payload := m.payload.getD defaultPayload
  let headers := payload.headers
  let fromEmail := getHeaderValue headers "From"
  let subject := getHeaderValue headers "Subject"
  let dateStr :=
    match m.internalDate with
    | some ms => formatDate ms
    | none =>
      let dateHeader := getHeaderValue headers "Date"
      if dateHeader == "" then "Unknown" else dateHeader
  let content := extractPlainText payload
  let fromEmail := (extractEmailAddress fromEmail).getD fromEmail
  ⟨fromEmail, subject, dateStr, content⟩

/-- EmailParser.parse_message: on the dict-shaped inputs of this model
every operation of the body is total, so the except branch that would
re-raise a parse failure is never taken. -/
def parseMessage (m : Message) : Except ParseError ParsedData :=
  .ok (parseMessageData m)

/-! ### State management (main.py, lines 42-123) -/

/-- The parsed contents of state.json: processed_message_ids and
last_run_timestamp. -/
structure SyncState where
  processedIds : List String
  lastRun : Option String
deriving Repr, DecidableEq

/-- The condition of the state file as seen by load_state: none models
a missing file, some none a file that exists but cannot be read or
parsed, some (some s) a file parsing to state s. -/
abbrev StateFile := Option (Option SyncState)

/-- StateManager.load_state (lines 55-75): the parsed state when the
file exists and parses, the default first-run state otherwise; no
failure is ever propagated to the caller. -/
def loadState : StateFile → SyncState
  | some (some s) => s
  | some none => ⟨[], none⟩
  | none => ⟨[], none⟩

/-- StateManager.mark_processed (lines 99-110): append the id to the
processed list unless already present. -/
def markProcessed (processed : List String) (msgId : String) : List String :=
  if processed.contains msgId then processed else processed ++ [msgId]

/-- The mark-as-read loop of main (lines 243-253): for each parsed
message id, the Gmail mark-read call is issued; on success the id is
recorded in the processed list.  markOk gives the per-id outcome the
provider reports. -/
def markReadFold (processed : List String) (ids : List String)
    (markOk : String → Bool) : List String :=
  ids.foldl (fun acc i => if markOk i then markProcessed acc i else acc) processed

/-! ### The synchronization pass (main.py, lines 126-275) -/

/-- A provider-side message: its id, whether it still carries the
UNREAD label, and its full content. -/
structure MailMsg where
  id : String
  unread : Bool
  raw : Message

/-- The world a pass acts on: the Gmail inbox, the sheet data rows and
the state file. -/
structure World where
  inbox : List MailMsg
  sheet : List Row
  stateFile : StateFile

/-- The counters reported by a pass (the summary of lines 262-271),
plus the number of mark-as-read calls issued. -/
structure PassStats where
  found : Nat
  newCount : Nat
  parsedCount : Nat
  appended : Nat
  skipped : Nat
  markReadCalls : Nat
  markedRead : Nat
deriving Repr, DecidableEq

/-- GmailService.get_unread_messages with the max_results=5 argument of
main (line 176): the first five messages still unread, in inbox
order. -/
def fetchUnread (w : World) : List MailMsg :=
  (w.inbox.filter (fun m => m.unread)).take 5

/-- The row built from a parsed message (lines 208-214). -/
def toRow (p : ParsedData) : Row := [p.fromAddr, p.subject, p.date, p.content]

/-- Steps 6-9 of main (lines 195-260), reached when some unparsed new
messages exist: parse each (a failing message is skipped), append the
rows in one batch, mark each parsed message read, record ids whose
mark-read succeeded, and save the state. -/
def runPassCore (markOk : String → Bool) (now : String) (w : World)
    (processed : List String) (messages newMessages : List MailMsg) :
    World × PassStats :=
  let parsed := newMessages.filterMap (fun m =>
    match parseMessage m.raw with
    | .ok p => some (m.id, toRow p)
    | .error _ => none)
  if parsed.isEmpty then
    (w, ⟨messages.length, newMessages.length, 0, 0, 0, 0, 0⟩)
  else
    let out := appendRows w.sheet (parsed.map (fun pr => pr.2))
    let parsedIds := parsed.map (fun pr => pr.1)
    let succeeded := parsedIds.filter markOk
    let processed := markReadFold processed parsedIds markOk
    let inbox := w.inbox.map (fun msg =>
      if succeeded.contains msg.id then { msg with unread := false } else msg)
    ({ inbox := inbox, sheet := out.sheet,
       stateFile := some (some ⟨processed, some now⟩) },
     ⟨messages.length, newMessages.length, parsed.length, out.appended,
       out.skipped, parsed.length, succeeded.length⟩)

/-- One synchronization pass: the body of main (lines 126-275).
markOk gives the outcome of each Gmail mark-as-read call, now the
timestamp recorded by update_last_run.  The three early returns (no
unread messages, no unfiltered messages, no parsed messages) leave the
world untouched: the state file is only written at the end of a full
pass. -/
def runPass (markOk : String → Bool) (now : String) (w : World) :
    World × PassStats :=
  let processed := (loadState w.stateFile).processedIds
  let messages := fetchUnread w
  if messages.isEmpty then (w, ⟨0, 0, 0, 0, 0, 0, 0⟩)
  else
    let newMessages := messages.filter (fun m => !(processed.contains m.id))
    if newMessages.isEmpty then
      (w, ⟨messages.length, 0, 0, 0, 0, 0, 0⟩)
    else runPassCore markOk now w processed messages newMessages

/-! ### Spec-side comparison definitions and concrete instances -/

/-- The timestamp clause of the specification, stated in its own words:
prefer the numeric epoch-milliseconds field converted to a readable
date, fall back to the raw Date header, fall back to the literal
Unknown. -/
def specTimestamp (m : Message) : String :=
  match m.internalDate with
  | some ms => formatDate ms
  | none =>
    let dateHeader := getHeaderValue (m.payload.getD defaultPayload).headers "Date"
    if dateHeader == "" then "Unknown" else dateHeader

/-- The specification's description of body extraction, in its own
words: the first plain-text part found by depth-first traversal of a
list of parts. -/
def firstPlainInParts : List Payload → Option String
  | [] => none
  | .single mt _ d :: ps =>
    if mt == "text/plain" && d != "" then some d else firstPlainInParts ps
  | .multi mt _ d sub :: ps =>
    if mt == "text/plain" && d != "" then some d
    else
      match firstPlainInParts sub with
      | some s => some s
      | none => firstPlainInParts ps
termination_by ps => sizeOf ps
decreasing_by
  all_goals simp
  all_goals omega

/-- The specification's first-plain-text-part-by-depth-first-traversal
function on a whole payload. -/
def firstPlainDFS : Payload → Option String
  | .single mt _ d => if mt == "text/plain" && d != "" then some d else none
  | .multi mt _ d sub =>
    if mt == "text/plain" && d != "" then some d else firstPlainInParts sub

/-- Concatenation of the data of all nonempty plain-text parts of a
flat part list, in order: what the accumulation loop actually keeps of
the plain-text parts. -/
def plainConcat (parts : List Payload) : String :=
  parts.foldr (fun p acc =>
    if p.mime == "text/plain" && p.data != "" then p.data ++ acc else acc) ""

/-- The HTML contribution of a flat part list: the converted content of
the first HTML part encountered before any nonempty plain-text part,
skipping HTML parts whose conversion is empty (the loop treats an empty
accumulated body as nothing found yet). -/
def htmlPrefix : List Payload → String
  | [] => ""
  | p :: ps =>
    if p.mime == "text/plain" && p.data != "" then ""
    else if p.mime == "text/html" && p.data != "" then
      (if htmlToText p.data == "" then htmlPrefix ps else htmlToText p.data)
    else htmlPrefix ps

/-- A multipart payload with two sibling plain-text parts, the concrete
input separating the accumulation loop from a first-part rule. -/
def twoPlainPayload : Payload :=
  .multi "multipart/alternative" [] ""
    [.single "text/plain" [] "A", .single "text/plain" [] "B"]

/-- A message carrying no payload and no internal date at all. -/
def emptyMessage : Message := ⟨none, none⟩

/-- Filler row of the large-sheet counterexample, with an identity
distinct from the key under scrutiny. -/
def junkRow : Row := ["x", "y", "z", "w"]

/-- A row carrying the identity key a, b, c. -/
def idRow : Row := ["a", "b", "c", "d"]

/-- A candidate row with the same identity key but another body. -/
def candRow : Row := ["a", "b", "c", "e"]

/-- The identity key of idRow and candRow. -/
def keyABC : List String := ["a", "b", "c"]

/-- A sheet whose row carrying the key sits just beyond the read
window: MAX_ROWS filler rows followed by idRow. -/
def bigSheet : List Row := List.replicate MAX_ROWS junkRow ++ [idRow]

/-- A plain-text test message with distinct sender, subject and body
derived from the index. -/
def mkTestMsg (i : Nat) : MailMsg :=
  ⟨"m" ++ toString i, true,
    ⟨some (Payload.single "text/plain"
        [("From", "u" ++ toString i ++ "@x.com"), ("Subject", "s" ++ toString i)]
        ("body" ++ toString i)),
      some 1704067200000⟩⟩

/-- A world with six unread messages, one more than the fetch bound,
an empty sheet and no state file. -/
def wSix : World :=
  ⟨[mkTestMsg 1, mkTestMsg 2, mkTestMsg 3, mkTestMsg 4, mkTestMsg 5,
    mkTestMsg 6], [], none⟩

/-- A world with two unread messages, within the fetch bound. -/
def wTwo : World := ⟨[mkTestMsg 1, mkTestMsg 2], [], none⟩


deriving instance DecidableEq for Except

/-! ### Shared helper lemmas -/

theorem length_normRow (r : Row) : (normRow r).length = r.length :=
  List.length_map r normCell

/-- Two rows matching the same identity key make any candidate matching
that key a duplicate of any list containing the other row. -/
theorem isDuplicate_of_matchesId {k : List String} {cand ex : Row}
    {existing : List Row} (hmem : ex ∈ existing)
    (hcand : matchesId k cand = true) (hex : matchesId k ex = true) :
    isDuplicate cand existing = true := by
  unfold matchesId at hcand hex
  simp only [Bool.and_eq_true, decide_eq_true_eq, beq_iff_eq] at hcand hex
  unfold isDuplicate
  rw [List.any_eq_true]
  refine ⟨ex, hmem, ?_⟩
  simp only [Bool.or_eq_true, Bool.and_eq_true, beq_iff_eq, decide_eq_true_eq]
  refine .inr ⟨⟨?_, ?_⟩, ?_⟩
  · rw [length_normRow]; exact hcand.1
  · rw [length_normRow]; exact hex.1
  · rw [hcand.2, hex.2]

theorem mem_markProcessed {processed : List String} {i x : String} :
    x ∈ markProcessed processed i ↔ x ∈ processed ∨ x = i := by
  unfold markProcessed
  split
  · rename_i hc
    rw [List.elem_iff] at hc
    constructor
    · exact fun h => .inl h
    · rintro (h | rfl)
      · exact h
      · exact hc
  · simp

theorem markReadFold_cons (processed : List String) (i : String)
    (ids : List String) (mo : String → Bool) :
    markReadFold processed (i :: ids) mo =
      markReadFold (if mo i then markProcessed processed i else processed) ids mo := by
  unfold markReadFold
  simp [List.foldl_cons]

theorem mem_markReadFold {ids : List String} {processed : List String}
    {mo : String → Bool} {x : String} :
    x ∈ markReadFold processed ids mo ↔
      x ∈ processed ∨ (x ∈ ids ∧ mo x = true) := by
  induction ids generalizing processed with
  | nil => simp [markReadFold]
  | cons i ids ih =>
    rw [markReadFold_cons]
    by_cases hmi : mo i = true
    · rw [if_pos hmi, ih, mem_markProcessed]
      simp only [List.mem_cons]
      constructor
      · rintro ((hx | rfl) | ⟨hx, hmo⟩)
        · exact .inl hx
        · exact .inr ⟨.inl rfl, hmi⟩
        · exact .inr ⟨.inr hx, hmo⟩
      · rintro (hx | ⟨(rfl | hx), hmo⟩)
        · exact .inl (.inl hx)
        · exact .inl (.inr rfl)
        · exact .inr ⟨hx, hmo⟩
    · rw [if_neg hmi, ih]
      simp only [List.mem_cons]
      constructor
      · rintro (hx | ⟨hx, hmo⟩)
        · exact .inl hx
        · exact .inr ⟨.inr hx, hmo⟩
      · rintro (hx | ⟨(rfl | hx), hmo⟩)
        · exact .inl hx
        · exact absurd hmo hmi
        · exact .inr ⟨hx, hmo⟩

theorem length_markReadFold {ids : List String} {mo : String → Bool} :
    ∀ {processed : List String}, ids.Nodup → (∀ i ∈ ids, i ∉ processed) →
      (markReadFold processed ids mo).length =
        processed.length + (ids.filter mo).length := by
  induction ids with
  | nil => intro processed _ _; simp [markReadFold]
  | cons i ids ih =>
    intro processed hnd hfresh
    rw [markReadFold_cons]
    have hndi := (List.nodup_cons.mp hnd).1
    have hndr := (List.nodup_cons.mp hnd).2
    by_cases hmi : mo i = true
    · rw [if_pos hmi]
      have hip : i ∉ processed := hfresh i (List.mem_cons_self i ids)
      have hmp : markProcessed processed i = processed ++ [i] := by
        unfold markProcessed
        rw [if_neg]
        intro hc
        exact hip (List.elem_iff.mp hc)
      rw [hmp, ih hndr]
      · simp [List.filter_cons, hmi]
        omega
      · intro j hj
        simp only [List.mem_append, List.mem_singleton]
        rintro (hjp | rfl)
        · exact hfresh j (List.mem_cons_of_mem i hj) hjp
        · exact hndi hj
    · rw [if_neg hmi, ih hndr]
      · simp [List.filter_cons, hmi]
      · exact fun j hj => hfresh j (List.mem_cons_of_mem i hj)

/-! ### Claim theorems -/

/-- C10.  Calling append_rows with an empty row list returns exactly
(0, 0), leaves the sheet unchanged, and performs no remote sink
operation at all: no header check, no read of existing rows, no append
call. -/
theorem append_rows_empty_no_ops (sheet : List Row) :
    appendRows sheet [] = ⟨sheet, 0, 0, []⟩ := rfl

/-- C9.  load_state returns the zero-value state (no processed ids, no
last-run timestamp) when the state file is missing or when it exists
but cannot be read or parsed, and returns the parsed state when it
parses; no failure reaches the caller in any case. -/
theorem state_load_never_fails :
    loadState none = ⟨[], none⟩ ∧ loadState (some none) = ⟨[], none⟩ ∧
      ∀ s : SyncState, loadState (some (some s)) = s :=
  ⟨rfl, rfl, fun _ => rfl⟩

/-- C4.  The exact duplicate rule: a candidate is judged a duplicate
whenever the comparison set contains a row whose four cells all equal
the candidate's after trimming and lowercasing; in particular the
spec's concrete example pair is judged a duplicate. -/
theorem exact_duplicate_rule :
    (∀ (cand ex : Row) (existing : List Row), ex ∈ existing →
        cand.length = 4 → ex.length = 4 → normRow cand = normRow ex →
        isDuplicate cand existing = true) ∧
      isDuplicate ["a@x.com", "Hi", "2024-01-01 00:00:00", "Body"]
        [["A@X.COM", " hi ", "2024-01-01 00:00:00", "Body"]] = true := by
  constructor
  · intro cand ex existing hmem hc4 he4 hnorm
    unfold isDuplicate
    rw [List.any_eq_true]
    refine ⟨ex, hmem, ?_⟩
    simp [hnorm]
  · decide

/-- C4 witness: the general rule applied to a concrete candidate,
comparison set and member row. -/
theorem exact_duplicate_rule_witness :
    isDuplicate ["x@y.zz", "A", "B", "C"]
      [["q", "r", "s", "t"], [" X@Y.ZZ ", "a", "b", "c"]] = true :=
  exact_duplicate_rule.1 ["x@y.zz", "A", "B", "C"] [" X@Y.ZZ ", "a", "b", "c"]
    [["q", "r", "s", "t"], [" X@Y.ZZ ", "a", "b", "c"]]
    (by simp) (by decide) (by decide) (by decide)

/-- C5.  The identity duplicate rule: a candidate is judged a duplicate
whenever the comparison set contains a row agreeing on the first three
normalized cells, whatever the two body cells contain; in particular a
candidate differing from an existing row only in the body is a
duplicate. -/
theorem identity_duplicate_rule :
    (∀ (cand ex : Row) (existing : List Row), ex ∈ existing →
        cand.length = 4 → ex.length = 4 →
        (normRow cand).take 3 = (normRow ex).take 3 →
        isDuplicate cand existing = true) ∧
      isDuplicate ["a@x.com", "Hi", "2024-01-01 00:00:00", "different body"]
        [["a@x.com", "Hi", "2024-01-01 00:00:00", "Body"]] = true := by
  constructor
  · intro cand ex existing hmem hc4 he4 htake
    have hcand : matchesId ((normRow ex).take 3) cand = true := by
      unfold matchesId
      simp [htake, hc4]
    have hex : matchesId ((normRow ex).take 3) ex = true := by
      unfold matchesId
      simp [he4]
    exact isDuplicate_of_matchesId hmem hcand hex
  · decide

/-- C5 witness: the general rule applied to concrete rows whose bodies
differ. -/
theorem identity_duplicate_rule_witness :
    isDuplicate ["u@v.ww", "Re: hi", "2024-02-02 01:02:03", "body one"]
      [["U@V.WW", "re: HI", "2024-02-02 01:02:03", "body two"]] = true :=
  identity_duplicate_rule.1 ["u@v.ww", "Re: hi", "2024-02-02 01:02:03", "body one"]
    ["U@V.WW", "re: HI", "2024-02-02 01:02:03", "body two"] _
    (by simp) (by decide) (by decide) (by decide)

/-- C3.  An id from the parsed batch ends up in the processed list
exactly when it was already there or its mark-read call succeeded; and
with three fresh distinct ids of which one fails, the processed list
gains exactly two. -/
theorem markread_gates_processed :
    (∀ (processed ids : List String) (mo : String → Bool) (x : String),
        x ∈ markReadFold processed ids mo ↔
          x ∈ processed ∨ (x ∈ ids ∧ mo x = true)) ∧
      ∀ (processed : List String) (a b c : String) (mo : String → Bool),
        a ∉ processed → b ∉ processed → c ∉ processed →
        a ≠ b → a ≠ c → b ≠ c →
        mo a = true → mo b = true → mo c = false →
        (markReadFold processed [a, b, c] mo).length = processed.length + 2 := by
  constructor
  · intro processed ids mo x
    exact mem_markReadFold
  · intro processed a b c mo ha hb hc hab hac hbc hma hmb hmc
    rw [length_markReadFold]
    · have : [a, b, c].filter mo = [a, b] := by
        simp [List.filter_cons, hma, hmb, hmc]
      rw [this]
      simp
    · simp [hab, hac, hbc]
    · intro i hi
      simp only [List.mem_cons, List.not_mem_nil, or_false] at hi
      rcases hi with rfl | rfl | rfl
      · exact ha
      · exact hb
      · exact hc

/-- C3 witness: the fresh-and-distinct hypotheses discharged on three
concrete ids with one failing mark-read call. -/
theorem markread_gates_processed_witness :
    (markReadFold ["old"] ["a", "b", "c"] (fun s => !(s == "c"))).length =
      1 + 2 :=
  markread_gates_processed.2 ["old"] "a" "b" "c" (fun s => !(s == "c"))
    (by decide) (by decide) (by decide) (by decide) (by decide) (by decide)
    (by decide) (by decide) (by decide)

/-- C6 counterexample: on a message with no payload and no internal
date at all, parse_message does not fail; it returns a normalized
record, refuting the claim that a ParseError reaches the caller. -/
theorem parse_structurally_absent_counterexample :
    parseMessage emptyMessage ≠ Except.error ParseError.parseError := by
  intro h
  simp [parseMessage] at h

/-- C6 amended: on a message with neither a headers field nor any body
payload, parse_message succeeds and returns the record with empty
sender, empty subject, the literal Unknown timestamp and empty body. -/
theorem parse_structurally_absent_returns_empty (m : Message)
    (hp : m.payload = none) (hd : m.internalDate = none) :
    parseMessage m = .ok ⟨"", "", "Unknown", ""⟩ := by
  cases m with
  | mk p d =>
    simp only at hp hd
    subst hp; subst hd
    rfl

/-- C6 witness: the amended statement applied to the concrete payload-
and date-free message. -/
theorem parse_structurally_absent_returns_empty_witness :
    parseMessage ⟨none, none⟩ = .ok ⟨"", "", "Unknown", ""⟩ :=
  parse_structurally_absent_returns_empty ⟨none, none⟩ rfl rfl

/-- C8.  The normalized timestamp follows the fallback chain of the
spec: the internal epoch-milliseconds date formatted as
YYYY-MM-DD HH:MM:SS when present, else the raw Date header, else the
literal Unknown; and the formatter renders the first second of 2024 as
expected. -/
theorem timestamp_fallback_chain :
    (∀ m : Message, (parseMessageData m).date = specTimestamp m) ∧
      formatDate 1704067200000 = "2024-01-01 00:00:00" := by
  constructor
  · intro m
    rfl
  · decide

theorem string_eq_empty_of_data {s : String} (h : s.data = []) : s = "" := by
  cases s with
  | mk l =>
    simp only at h
    rw [h]

theorem strAppend_ne_empty {a : String} (ha : a ≠ "") (b : String) :
    a ++ b ≠ "" := by
  intro hab
  apply ha
  have hdata : a.data ++ b.data = [] := congrArg String.data hab
  exact string_eq_empty_of_data (List.append_eq_nil.mp hdata).1

theorem plainConcat_cons (p : Payload) (ps : List Payload) :
    plainConcat (p :: ps) =
      if p.mime == "text/plain" && p.data != "" then p.data ++ plainConcat ps
      else plainConcat ps := rfl

theorem plainConcat_cons_plain {mt d : String} {hd : List (String × String)}
    {ps : List Payload} (hp : (mt == "text/plain" && d != "") = true) :
    plainConcat (.single mt hd d :: ps) = d ++ plainConcat ps := by
  rw [plainConcat_cons]
  simp only [Payload.mime, Payload.data]
  rw [if_pos hp]

theorem plainConcat_cons_other {mt d : String} {hd : List (String × String)}
    {ps : List Payload} (hp : (mt == "text/plain" && d != "") = false) :
    plainConcat (.single mt hd d :: ps) = plainConcat ps := by
  rw [plainConcat_cons]
  simp only [Payload.mime, Payload.data]
  rw [if_neg]
  simp [hp]

theorem extractLoop_cons_single (mt : String) (hd : List (String × String))
    (d : String) (ps : List Payload) (body : String) :
    extractLoop body (.single mt hd d :: ps) =
      extractLoop (plainHtmlStep mt d body) ps := by
  simp [extractLoop]

theorem plainHtmlStep_plain {mt d : String} (body : String)
    (hp : (mt == "text/plain" && d != "") = true) :
    plainHtmlStep mt d body = body ++ d := by
  unfold plainHtmlStep
  rw [if_pos hp]

theorem plainHtmlStep_skip {mt d : String} {body : String}
    (hp : (mt == "text/plain" && d != "") = false)
    (hh : (mt == "text/html" && body == "" && d != "") = false) :
    plainHtmlStep mt d body = body := by
  unfold plainHtmlStep
  rw [if_neg (by simp [hp]), if_neg (by simp [hh])]

theorem extractLoop_ne_empty {ps : List Payload}
    (hflat : ps.all Payload.isSingle = true) :
    ∀ {body : String}, body ≠ "" →
      extractLoop body ps = body ++ plainConcat ps := by
  induction ps with
  | nil =>
    intro body _
    simp [extractLoop, plainConcat, String.append_empty]
  | cons p ps ih =>
    intro body hbody
    rw [List.all_cons, Bool.and_eq_true] at hflat
    obtain ⟨hps, hflat'⟩ := hflat
    cases p with
    | multi mt hd d sub => simp [Payload.isSingle] at hps
    | single mt hd d =>
      rw [extractLoop_cons_single]
      by_cases hpl : (mt == "text/plain" && d != "") = true
      · rw [plainHtmlStep_plain body hpl,
          ih hflat' (strAppend_ne_empty hbody d),
          plainConcat_cons_plain hpl, String.append_assoc]
      · have hpl' : (mt == "text/plain" && d != "") = false :=
          Bool.not_eq_true _ ▸ Bool.eq_false_iff.mpr hpl
        have hbo : (body == "") = false := by
          simp [hbody]
        have hh : (mt == "text/html" && body == "" && d != "") = false := by
          simp [hbo]
        rw [plainHtmlStep_skip hpl' hh, ih hflat' hbody,
          plainConcat_cons_other hpl']

theorem extractLoop_nil (body : String) : extractLoop body [] = body := by
  simp [extractLoop]

theorem plainHtmlStep_html {mt d body : String}
    (hp : (mt == "text/plain" && d != "") = false)
    (hh : (mt == "text/html" && body == "" && d != "") = true) :
    plainHtmlStep mt d body = htmlToText d := by
  unfold plainHtmlStep
  rw [if_neg (by simp [hp]), if_pos hh]

theorem htmlPrefix_cons (p : Payload) (ps : List Payload) :
    htmlPrefix (p :: ps) =
      if p.mime == "text/plain" && p.data != "" then ""
      else if p.mime == "text/html" && p.data != "" then
        (if htmlToText p.data == "" then htmlPrefix ps else htmlToText p.data)
      else htmlPrefix ps := rfl

theorem extractLoop_empty_body {ps : List Payload}
    (hflat : ps.all Payload.isSingle = true) :
    extractLoop "" ps = htmlPrefix ps ++ plainConcat ps := by
  induction ps with
  | nil => simp [extractLoop_nil, htmlPrefix, plainConcat]
  | cons p ps ih =>
    rw [List.all_cons, Bool.and_eq_true] at hflat
    obtain ⟨hps, hflat'⟩ := hflat
    cases p with
    | multi mt hd d sub => simp [Payload.isSingle] at hps
    | single mt hd d =>
      rw [extractLoop_cons_single, htmlPrefix_cons]
      simp only [Payload.mime, Payload.data]
      by_cases hpl : (mt == "text/plain" && d != "") = true
      · have hdne : d ≠ "" := by
          rcases Bool.and_eq_true .. |>.mp hpl with ⟨_, h2⟩
          exact bne_iff_ne.mp h2
        rw [plainHtmlStep_plain _ hpl, String.empty_append,
          extractLoop_ne_empty hflat' hdne, plainConcat_cons_plain hpl,
          if_pos hpl, String.empty_append]
      · have hpl' : (mt == "text/plain" && d != "") = false :=
          Bool.eq_false_iff.mpr hpl
        rw [if_neg hpl, plainConcat_cons_other hpl']
        by_cases hht : (mt == "text/html" && d != "") = true
        · have hh : (mt == "text/html" && ("" : String) == "" && d != "") = true := by
            rcases Bool.and_eq_true .. |>.mp hht with ⟨h1, h2⟩
            simp [h1, h2]
          rw [plainHtmlStep_html hpl' hh, if_pos hht]
          by_cases hres : htmlToText d = ""
          · rw [hres, ih hflat']
            simp
          · have hresb : (htmlToText d == "") = false := by
              simp [hres]
            rw [extractLoop_ne_empty hflat' hres, hresb]
            simp
        · have hht' : (mt == "text/html" && d != "") = false :=
            Bool.eq_false_iff.mpr hht
          have hh : (mt == "text/html" && ("" : String) == "" && d != "") = false := by
            rcases Bool.and_eq_false_iff.mp hht' with h1 | h2
            · simp [h1]
            · simp [h2]
          rw [plainHtmlStep_skip hpl' hh, ih hflat', if_neg hht]

/-- C7 counterexample: a payload with two sibling plain-text parts A
and B.  The first plain-text part found by depth-first traversal is A,
but the extracted body is the concatenation AB, so the body is not the
first plain-text part. -/
theorem body_extraction_counterexample :
    firstPlainDFS twoPlainPayload = some "A" ∧
      extractPlainText twoPlainPayload = "AB" ∧ ("AB" : String) ≠ "A" := by
  refine ⟨?_, ?_, by decide⟩
  · show firstPlainInParts
      [Payload.single "text/plain" [] "A", Payload.single "text/plain" [] "B"] =
        some "A"
    simp [firstPlainInParts]
  · show strTrim (extractLoop ""
      [Payload.single "text/plain" [] "A", Payload.single "text/plain" [] "B"]) =
        "AB"
    rw [extractLoop_cons_single, extractLoop_cons_single, extractLoop_nil]
    decide

/-- C7 amended: body extraction as the accumulation loop actually
behaves.  For a single-part payload the body is the content, converted
when HTML-typed, trimmed.  For a multipart payload whose parts are all
leaf parts, the body is the concatenation of the contents of all
nonempty plain-text parts in order, prefixed by the converted content
of the first HTML part when it precedes every nonempty plain-text part
and converts to nonempty text, all trimmed; it is not in general the
first plain-text part of a depth-first traversal. -/
theorem body_extraction_characterization :
    (∀ (mt : String) (hd : List (String × String)) (d : String),
        extractPlainText (.single mt hd d) =
          if mt == "text/html" && d != "" then strTrim (htmlToText d)
          else strTrim d) ∧
      ∀ (mt : String) (hd : List (String × String)) (d : String)
        (parts : List Payload), parts.all Payload.isSingle = true →
        extractPlainText (.multi mt hd d parts) =
          strTrim (htmlPrefix parts ++ plainConcat parts) := by
  constructor
  · intro mt hd d
    show strTrim (if d == "" then ""
        else if mt == "text/plain" then d
        else if mt == "text/html" then htmlToText d
        else d) = _
    by_cases hd0 : d = ""
    · simp [hd0]
    · by_cases hpl : mt = "text/plain"
      · simp [hd0, hpl]
      · by_cases hht : mt = "text/html"
        · simp [hd0, hpl, hht]
        · simp [hd0, hpl, hht]
  · intro mt hd d parts hflat
    show strTrim (extractLoop "" parts) = _
    rw [extractLoop_empty_body hflat]

/-- C7 witness: the flat-multipart clause applied to a concrete list of
leaf parts, an HTML part followed by a plain-text part. -/
theorem body_extraction_characterization_witness :
    extractPlainText (.multi "multipart/alternative" [] ""
        [Payload.single "text/html" [] "<b>Hi</b>",
         Payload.single "text/plain" [] " there"]) =
      strTrim (htmlPrefix
          [Payload.single "text/html" [] "<b>Hi</b>",
           Payload.single "text/plain" [] " there"] ++
        plainConcat
          [Payload.single "text/html" [] "<b>Hi</b>",
           Payload.single "text/plain" [] " there"]) :=
  body_extraction_characterization.2 "multipart/alternative" [] ""
    [Payload.single "text/html" [] "<b>Hi</b>",
     Payload.single "text/plain" [] " there"] (by decide)

theorem countId_append (k : List String) (l1 l2 : List Row) :
    countId k (l1 ++ l2) = countId k l1 + countId k l2 := by
  unfold countId
  rw [List.filter_append, List.length_append]

theorem exists_matches_of_countId_ne_zero {k : List String} {l : List Row}
    (h : countId k l ≠ 0) : ∃ e ∈ l, matchesId k e = true := by
  unfold countId at h
  rcases List.exists_mem_of_length_pos (Nat.pos_of_ne_zero h) with ⟨e, he⟩
  exact ⟨e, (List.mem_filter.mp he).1, (List.mem_filter.mp he).2⟩

theorem any_replicate_false {α : Type} (p : α → Bool) (x : α)
    (hx : p x = false) (n : Nat) : (List.replicate n x).any p = false := by
  induction n with
  | zero => simp
  | succ n ih => simp [List.replicate_succ, ih, hx]

theorem dedup_fold_invariant (k : List String) (sheet : List Row) :
    ∀ (rows nr ex : List Row) (sk : Nat), ex = sheet ++ nr →
      countId k ex ≤ 1 →
      (rows.foldl dedupStep (nr, ex, sk)).2.1 =
          sheet ++ (rows.foldl dedupStep (nr, ex, sk)).1 ∧
        countId k (rows.foldl dedupStep (nr, ex, sk)).2.1 ≤ 1 := by
  intro rows
  induction rows with
  | nil =>
    intro nr ex sk hex hcount
    exact ⟨hex, hcount⟩
  | cons r rows ih =>
    intro nr ex sk hex hcount
    rw [List.foldl_cons]
    by_cases hdup : isDuplicate r ex = true
    · rw [show dedupStep (nr, ex, sk) r = (nr, ex, sk + 1) from by
        simp [dedupStep, hdup]]
      exact ih nr ex (sk + 1) hex hcount
    · rw [show dedupStep (nr, ex, sk) r = (nr ++ [r], ex ++ [r], sk) from by
        simp [dedupStep, hdup]]
      refine ih (nr ++ [r]) (ex ++ [r]) sk ?_ ?_
      · rw [hex, List.append_assoc]
      · rw [countId_append]
        by_cases hr : matchesId k r = true
        · have hzero : countId k ex = 0 := by
            by_contra hnz
            rcases exists_matches_of_countId_ne_zero hnz with ⟨e, hmem, he⟩
            exact hdup (isDuplicate_of_matchesId hmem hr he)
          rw [hzero]
          simp [countId, List.filter, hr]
        · have hr' : matchesId k r = false := Bool.eq_false_iff.mpr hr
          have : countId k [r] = 0 := by
            simp [countId, List.filter, hr']
          omega

theorem countId_appendRows_le (k : List String) {sheet : List Row}
    (hlen : sheet.length ≤ MAX_ROWS) (h1 : countId k sheet ≤ 1)
    (rows : List Row) : countId k (appendRows sheet rows).sheet ≤ 1 := by
  unfold appendRows
  by_cases hrows : rows.isEmpty = true
  · rw [if_pos hrows]
    exact h1
  · rw [if_neg hrows]
    have hread : getExistingRows sheet = sheet := by
      unfold getExistingRows
      exact List.take_of_length_le hlen
    have hinv := dedup_fold_invariant k sheet rows [] (getExistingRows sheet) 0
      (by rw [hread, List.append_nil]) (by rw [hread]; exact h1)
    by_cases hnew : (rows.foldl dedupStep ([], getExistingRows sheet, 0)).1.isEmpty = true
    · rw [if_pos hnew]
      exact h1
    · rw [if_neg hnew]
      show countId k (sheet ++ (rows.foldl dedupStep ([], getExistingRows sheet, 0)).1) ≤ 1
      rw [← hinv.1]
      exact hinv.2

theorem appendRows_sheet_length (sheet rows : List Row) :
    sheet.length ≤ (appendRows sheet rows).sheet.length := by
  unfold appendRows
  by_cases hrows : rows.isEmpty = true
  · rw [if_pos hrows]
  · rw [if_neg hrows]
    by_cases hnew : (rows.foldl dedupStep ([], getExistingRows sheet, 0)).1.isEmpty = true
    · rw [if_pos hnew]
    · rw [if_neg hnew]
      show sheet.length ≤ (sheet ++ _).length
      simp

theorem applyPasses_cons (sheet : List Row) (b : List Row)
    (bs : List (List Row)) :
    applyPasses sheet (b :: bs) = applyPasses (appendRows sheet b).sheet bs := by
  unfold applyPasses
  rw [List.foldl_cons]

theorem length_le_applyPasses (sheet : List Row) (bs : List (List Row)) :
    sheet.length ≤ (applyPasses sheet bs).length := by
  induction bs generalizing sheet with
  | nil => simp [applyPasses]
  | cons b bs ih =>
    rw [applyPasses_cons]
    exact le_trans (appendRows_sheet_length sheet b) (ih _)

/-- C1 amended: across any number of passes, each issuing one
append_rows call, the store never holds more than one row with a given
normalized identity, provided the store never outgrows the MAX_ROWS
read window of the duplicate check. -/
theorem at_most_once_row_bounded (k : List String) (sheet : List Row)
    (batches : List (List Row)) (h1 : countId k sheet ≤ 1)
    (hb : (applyPasses sheet batches).length ≤ MAX_ROWS) :
    countId k (applyPasses sheet batches) ≤ 1 := by
  induction batches generalizing sheet with
  | nil => simpa [applyPasses] using h1
  | cons b bs ih =>
    rw [applyPasses_cons] at hb ⊢
    have hlen : sheet.length ≤ MAX_ROWS :=
      le_trans (appendRows_sheet_length sheet b)
        (le_trans (length_le_applyPasses _ bs) hb)
    exact ih _ (countId_appendRows_le k hlen h1 b) hb

/-- C1 witness: the bounded invariant applied to an empty store and two
passes, the second of which retries the first pass's message. -/
theorem at_most_once_row_bounded_witness :
    countId keyABC (applyPasses [] [[idRow], [candRow]]) ≤ 1 :=
  at_most_once_row_bounded keyABC [] [[idRow], [candRow]] (by decide) (by decide)

/-- C1 counterexample: a store of MAX_ROWS filler rows followed by one
row carrying the identity key holds exactly one row with that key, yet
a retried append of a row with the same key slips past the duplicate
check, whose read window misses the matching row, leaving two rows with
the key. -/
theorem at_most_once_beyond_window_counterexample :
    countId keyABC bigSheet = 1 ∧
      countId keyABC (appendRows bigSheet [candRow]).sheet = 2 := by
  have hjunk : matchesId keyABC junkRow = false := by decide
  have hfjunk : ∀ n, (List.replicate n junkRow).filter (matchesId keyABC) = [] := by
    intro n
    refine List.filter_eq_nil_iff.mpr ?_
    intro a ha
    rw [List.eq_of_mem_replicate ha, hjunk]
    simp
  have hcount1 : countId keyABC bigSheet = 1 := by
    unfold countId bigSheet
    rw [List.filter_append, hfjunk]
    decide
  refine ⟨hcount1, ?_⟩
  have hread : getExistingRows bigSheet = List.replicate MAX_ROWS junkRow := by
    unfold getExistingRows bigSheet
    exact List.take_left' (List.length_replicate _ _)
  have hdup : isDuplicate candRow (List.replicate MAX_ROWS junkRow) = false := by
    simp only [isDuplicate]
    exact any_replicate_false _ _ (by decide) _
  have hfold : List.foldl dedupStep ([], List.replicate MAX_ROWS junkRow, 0)
      [candRow] = ([candRow], List.replicate MAX_ROWS junkRow ++ [candRow], 0) := by
    rw [List.foldl_cons, List.foldl_nil]
    simp [dedupStep, hdup]
  have hsheet : (appendRows bigSheet [candRow]).sheet = bigSheet ++ [candRow] := by
    simp [appendRows, hread, hfold]
  rw [hsheet, countId_append, hcount1]
  decide

theorem filterMap_parse (l : List MailMsg) :
    l.filterMap (fun m =>
      match parseMessage m.raw with
      | .ok p => some (m.id, toRow p)
      | .error _ => none) =
      l.map (fun m => (m.id, toRow (parseMessageData m.raw))) := by
  induction l with
  | nil => rfl
  | cons x l ih =>
    rw [List.filterMap_cons, List.map_cons, ← ih]
    rfl

theorem runPass_fetch_empty (mo : String → Bool) (now : String) (w : World)
    (h : (fetchUnread w).isEmpty = true) :
    runPass mo now w = (w, ⟨0, 0, 0, 0, 0, 0, 0⟩) := by
  simp only [runPass]
  rw [if_pos h]

theorem runPass_no_new (mo : String → Bool) (now : String) (w : World)
    (h1 : (fetchUnread w).isEmpty = false)
    (h2 : ((fetchUnread w).filter
      (fun m => !((loadState w.stateFile).processedIds.contains m.id))).isEmpty
        = true) :
    runPass mo now w = (w, ⟨(fetchUnread w).length, 0, 0, 0, 0, 0, 0⟩) := by
  simp only [runPass]
  rw [if_neg (by rw [h1]; simp), if_pos h2]

theorem runPass_core (mo : String → Bool) (now : String) (w : World)
    (h1 : (fetchUnread w).isEmpty = false)
    (h2 : ((fetchUnread w).filter
      (fun m => !((loadState w.stateFile).processedIds.contains m.id))).isEmpty
        = false) :
    runPass mo now w =
      runPassCore mo now w (loadState w.stateFile).processedIds (fetchUnread w)
        ((fetchUnread w).filter
          (fun m => !((loadState w.stateFile).processedIds.contains m.id))) := by
  simp only [runPass]
  rw [if_neg (by rw [h1]; simp), if_neg (by rw [h2]; simp)]

theorem runPassCore_eq (mo : String → Bool) (now : String) (w : World)
    (processed : List String) (messages newMessages : List MailMsg)
    (hne : newMessages.isEmpty = false) :
    runPassCore mo now w processed messages newMessages =
      ({ inbox := w.inbox.map (fun msg =>
            if ((newMessages.map (fun m => m.id)).filter mo).contains msg.id
            then { msg with unread := false } else msg),
         sheet := (appendRows w.sheet
           (newMessages.map (fun m => toRow (parseMessageData m.raw)))).sheet,
         stateFile := some (some
           ⟨markReadFold processed (newMessages.map (fun m => m.id)) mo,
            some now⟩) },
       ⟨messages.length, newMessages.length, newMessages.length,
        (appendRows w.sheet
          (newMessages.map (fun m => toRow (parseMessageData m.raw)))).appended,
        (appendRows w.sheet
          (newMessages.map (fun m => toRow (parseMessageData m.raw)))).skipped,
        newMessages.length,
        ((newMessages.map (fun m => m.id)).filter mo).length⟩) := by
  have hmapne : ((newMessages.map
      (fun m => (m.id, toRow (parseMessageData m.raw)))).isEmpty) = false := by
    cases newMessages with
    | nil => simp at hne
    | cons x l => simp
  simp only [runPassCore, filterMap_parse]
  rw [if_neg (by rw [hmapne]; simp)]
  simp only [List.map_map, List.length_map]
  exact rfl

theorem mem_unread_after_mark {inbox : List MailMsg} {succeeded : List String}
    {m : MailMsg}
    (hm : m ∈ (inbox.map (fun msg =>
      if succeeded.contains msg.id then { msg with unread := false }
      else msg)).filter (fun x => x.unread)) :
    m ∈ inbox ∧ m.unread = true ∧ succeeded.contains m.id = false := by
  rw [List.mem_filter] at hm
  rcases List.mem_map.mp hm.1 with ⟨y, hy, hfy⟩
  by_cases hc : succeeded.contains y.id = true
  · rw [if_pos hc] at hfy
    exfalso
    rw [← hfy] at hm
    simpa using hm.2
  · rw [if_neg hc] at hfy
    rw [← hfy]
    exact ⟨hy, by rw [hfy]; exact hm.2, Bool.eq_false_iff.mpr hc⟩

theorem runPass_zero_of_all_processed (mo : String → Bool) (now : String)
    (w : World)
    (hall : ∀ m ∈ fetchUnread w,
      (loadState w.stateFile).processedIds.contains m.id = true) :
    (runPass mo now w).2.appended = 0 ∧
      (runPass mo now w).2.markReadCalls = 0 := by
  by_cases hU : (fetchUnread w).isEmpty = true
  · rw [runPass_fetch_empty _ _ _ hU]
    exact ⟨rfl, rfl⟩
  · have hN : ((fetchUnread w).filter
        (fun m => !((loadState w.stateFile).processedIds.contains m.id))).isEmpty
          = true := by
      rw [List.isEmpty_iff]
      apply List.filter_eq_nil_iff.mpr
      intro a ha
      rw [hall a ha]
      simp
    rw [runPass_no_new _ _ _ (Bool.eq_false_iff.mpr hU) hN]
    exact ⟨rfl, rfl⟩

/-- C2 amended: if a pass in which every mark-read call succeeds runs
over a state with at most five unread messages (the fetch page bound of
the pass), then a second pass over the resulting state appends zero new
rows and issues zero mark-read calls, whatever outcomes its own
mark-read calls would report. -/
theorem idempotent_second_pass_bounded (w : World) (t1 t2 : String)
    (mo2 : String → Bool)
    (hb : (w.inbox.filter (fun m => m.unread)).length ≤ 5) :
    (runPass mo2 t2 (runPass (fun _ => true) t1 w).1).2.appended = 0 ∧
      (runPass mo2 t2 (runPass (fun _ => true) t1 w).1).2.markReadCalls = 0 := by
  have hfetch : fetchUnread w = w.inbox.filter (fun m => m.unread) :=
    List.take_of_length_le hb
  by_cases hU : (fetchUnread w).isEmpty = true
  · rw [runPass_fetch_empty _ _ _ hU]
    apply runPass_zero_of_all_processed
    intro m hm
    exfalso
    rw [List.isEmpty_iff] at hU
    rw [hU] at hm
    exact (List.not_mem_nil m) hm
  · have hU' := Bool.eq_false_iff.mpr hU
    by_cases hN : ((fetchUnread w).filter
        (fun m =>
          !((loadState w.stateFile).processedIds.contains m.id))).isEmpty = true
    · rw [runPass_no_new _ _ _ hU' hN]
      apply runPass_zero_of_all_processed
      intro m hm
      have hnm := List.filter_eq_nil_iff.mp (List.isEmpty_iff.mp hN) m hm
      cases hPc : (loadState w.stateFile).processedIds.contains m.id with
      | false => exact absurd (by rw [hPc]; rfl) hnm
      | true => rfl
    · have hN' := Bool.eq_false_iff.mpr hN
      rw [runPass_core _ _ _ hU' hN', runPassCore_eq _ _ _ _ _ _ hN',
        List.filter_true]
      apply runPass_zero_of_all_processed
      intro m hm
      have hm' : m ∈ (w.inbox.map (fun msg =>
          if (((fetchUnread w).filter (fun x =>
              !((loadState w.stateFile).processedIds.contains x.id))).map
                (fun x => x.id)).contains msg.id
          then { msg with unread := false } else msg)).filter
            (fun x => x.unread) := List.mem_of_mem_take hm
      rcases mem_unread_after_mark hm' with ⟨hyin, hyunread, hnotin⟩
      apply List.elem_iff.mpr
      apply mem_markReadFold.mpr
      left
      have hmU : m ∈ fetchUnread w := by
        rw [hfetch]
        exact List.mem_filter.mpr ⟨hyin, hyunread⟩
      cases hPc : (loadState w.stateFile).processedIds.contains m.id with
      | true => exact List.elem_iff.mp hPc
      | false =>
        exfalso
        have hmNM : m ∈ (fetchUnread w).filter (fun x =>
            !((loadState w.stateFile).processedIds.contains x.id)) :=
          List.mem_filter.mpr ⟨hmU, by rw [hPc]; rfl⟩
        have hcon : (((fetchUnread w).filter (fun x =>
            !((loadState w.stateFile).processedIds.contains x.id))).map
              (fun x => x.id)).contains m.id = true :=
          List.elem_iff.mpr (List.mem_map.mpr ⟨m, hmNM, rfl⟩)
        rw [hnotin] at hcon
        cases hcon

/-- C2 witness: the bounded idempotence applied to a concrete world of
two unread messages. -/
theorem idempotent_second_pass_bounded_witness :
    (runPass (fun _ => true) "t2"
        (runPass (fun _ => true) "t1" wTwo).1).2.appended = 0 ∧
      (runPass (fun _ => true) "t2"
        (runPass (fun _ => true) "t1" wTwo).1).2.markReadCalls = 0 :=
  idempotent_second_pass_bounded wTwo "t1" "t2" (fun _ => true) (by decide)

/-- C2 counterexample: with six unread messages no new remote message
arrives between two fully successful passes, yet the second pass
appends one row (the sixth message, beyond the first pass's fetch page
of five) and issues one mark-read call. -/
theorem idempotent_second_pass_counterexample :
    (wSix.inbox.filter (fun m => m.unread)).length = 6 ∧
      (runPass (fun _ => true) "t2"
        (runPass (fun _ => true) "t1" wSix).1).2.appended = 1 ∧
      (runPass (fun _ => true) "t2"
        (runPass (fun _ => true) "t1" wSix).1).2.markReadCalls = 1 := by
  refine ⟨by decide, ?_, ?_⟩ <;> decide
